import Mathlib

/-!
Shallow embedding of `src/gcm/sparse_gcm.py` (class `SparseGCM`, the graph
associative memory engine) together with theorems checking the specification's
claims about it.

Modelling conventions:
* A `[B, N, F]` node buffer is a function `ℕ → ℕ → α` (batch index, slot index)
  whose feature rows are abstract values of a type `α` with a zero (the engine
  only copies, zeroes and hands rows to collaborators, so the feature dimension
  is kept abstract; concrete instances use `ℚ`).
* The sparse edge list `[2, E]` is a `List (ℕ × ℕ)` of (source, destination)
  flat indices; edge weights `[E]` are a `List ℚ`.
* Shape-only facts (claim C10) are stated over explicit shape lists `List ℕ`.
* Exceptions (`assert`, `raise`, indexing errors) are modelled with `Except`.
* `gcm.util` (index planner / graph flattener) is not part of `src/`; those
  definitions are modelled from the spec, as marked in their doc comments.
-/

namespace SparseGCMModel

/-- Failure outcomes of `SparseGCM.forward` (src lines 111-148):
causality assertion (line 111), `.max()` on an empty index tensor (line 113),
the overflow raise (line 114), the two failure modes of the auxiliary
edge-selector branch (lines 133-136: calling a `None` primary selector, or
unpacking a 2-tuple into three names), and out-of-range advanced indexing of
the GNN output (line 144). -/
inductive GCMError : Type
  | causalityViolation
  | emptyMaxReduction
  | overflow
  | noneTypeNotCallable
  | unpackValueError
  | indexError
  deriving DecidableEq, Repr

/-- Concatenation of the blocks `f 0 ++ f 1 ++ ⋯ ++ f (n-1)`, matching the
batch-major iteration order of the batched index tensors. -/
def rangeFlat (f : ℕ → List β) : ℕ → List β
  | 0 => []
  | n + 1 => rangeFlat f n ++ f n

/-- Sum `g 0 + g 1 + ⋯ + g (n-1)`. -/
def rangeSum (g : ℕ → ℕ) : ℕ → ℕ
  | 0 => 0
  | n + 1 => rangeSum g n + g n

/-- Fancy scatter-assignment on a `[B, *]` grid: each list entry
`((b, i), v)` performs `grid[b, i] = v`, later entries winning (torch
in-order scatter semantics). -/
def applyVals (ps : List ((ℕ × ℕ) × α)) (base : ℕ → ℕ → α) : ℕ → ℕ → α :=
  ps.foldl (fun acc pv => fun b i => if b = pv.1.1 ∧ i = pv.1.2 then pv.2 else acc b i) base

/-- Modelled from the spec: `gcm.util.get_new_node_idxs` (absent from `src/`),
the Index Planner output pairing each new node with its batch row and absolute
write slot `T_b + offset` (spec §4.1): batch-major `(batch_idx, slot_idx)`
pairs, one per new node, `offset < taus_b`. -/
def get_new_node_idxs (T taus : ℕ → ℕ) (B : ℕ) : List (ℕ × ℕ) :=
  rangeFlat (fun b => (List.range (taus b)).map fun j => (b, T b + j)) B

/-- Modelled from the spec: `gcm.util.get_nonpadded_idxs` (absent from `src/`),
the Index Planner output identifying the real (non-padding) entries of the
padded `[B, t, F]` input: batch-major `(batch_idx, time_idx)` pairs with
`time_idx < taus_b` (spec §4.1). The `T` argument is part of the source call
signature but does not enter the padding map. -/
def get_nonpadded_idxs (T taus : ℕ → ℕ) (B : ℕ) : List (ℕ × ℕ) :=
  let _ := T
  rangeFlat (fun b => (List.range (taus b)).map fun j => (b, j)) B

/-- Flat-graph offset of batch element `b`: the number of live nodes (after
this call's writes) in batch elements before `b`. -/
def flatOffset (T taus : ℕ → ℕ) (b : ℕ) : ℕ :=
  rangeSum (fun c => T c + taus c) b

/-- Modelled from the spec: `gcm.util.flatten_nodes` (absent from `src/`), the
Graph Flattener (spec §4.2): concatenates each batch element's live prefix
`nodes[b, 0 : T_b + taus_b]` in batch order into one flat node sequence, and
returns the flat positions of this call's new nodes (batch-major, matching the
Index Planner order). -/
def flatten_nodes (nodes : ℕ → ℕ → α) (T taus : ℕ → ℕ) (B : ℕ) :
    List α × List ℕ :=
  (rangeFlat (fun b => (List.range (T b + taus b)).map fun i => nodes b i) B,
   rangeFlat (fun b => (List.range (taus b)).map fun j => flatOffset T taus b + T b + j) B)

/-- Edge-selector collaborator contract (spec §6): receives the (dirty) node
buffer, current edges, weights, `T`, `taus` and `B`, returns augmented
`(edges, weights)`. -/
abbrev EdgeSel (α : Type) :=
  (ℕ → ℕ → α) → List (ℕ × ℕ) → List ℚ → (ℕ → ℕ) → (ℕ → ℕ) → ℕ →
    List (ℕ × ℕ) × List ℚ

/-- The `SparseGCM` module configuration (constructor arguments, src lines
16-45). Collaborators are pure functions; optional ones are `Option`s, the
`None` default of the source. -/
structure SparseGCM (α : Type) where
  gnn : List α → List (ℕ × ℕ) → List ℚ → List α
  preprocessor : Option ((ℕ → ℕ → α) → (ℕ → ℕ → α)) := none
  edge_selectors : Option (EdgeSel α) := none
  aux_edge_selectors : Option (EdgeSel α) := none
  graph_size : ℕ := 128
  positional_encoder : Option ((ℕ → ℕ → α) → (ℕ → ℕ → α)) := none

/-- The hidden state tuple `(nodes, edges, weights, T)` (src lines 68-76) with
the node-buffer capacity `N = nodes.shape[1]` carried explicitly (function
representations have no intrinsic shape). -/
structure Hidden (α : Type) where
  N : ℕ
  nodes : ℕ → ℕ → α
  edges : List (ℕ × ℕ)
  weights : List ℚ
  T : ℕ → ℕ

variable {α : Type} [Zero α]

/-- `SparseGCM.get_initial_hidden_state` (src lines 47-61): zero node buffer of
capacity `graph_size`, no edges, no weights, `T = 0`. (The `[B, 2, 0]` /
`[B, 1, 0]` tensor shapes it uses for edges and weights are modelled separately
at the shape level for claim C10.) -/
def SparseGCM.get_initial_hidden_state (m : SparseGCM α) (_B : ℕ) : Hidden α :=
  { N := m.graph_size
    nodes := fun _ _ => 0
    edges := []
    weights := []
    T := fun _ => 0 }

/-- The hidden state actually used by `forward`: the supplied one, or the
freshly constructed initial state in the `hidden == None` base case
(src lines 94-96). -/
def hiddenOr (m : SparseGCM α) (B : ℕ) (hidden : Option (Hidden α)) : Hidden α :=
  hidden.getD (m.get_initial_hidden_state B)

/-- Src line 116, `nodes[B_idxs, tau_idxs] = x[dense_B_idxs, dense_tau_idxs]`:
scatter the real entries of `x` into the cloned node buffer at the planned
absolute slots. -/
def updatedNodes (x : ℕ → ℕ → α) (taus : ℕ → ℕ) (B : ℕ) (h : Hidden α) :
    ℕ → ℕ → α :=
  applyVals
    (((get_new_node_idxs h.T taus B).zip (get_nonpadded_idxs h.T taus B)).map
      fun p => (p.1, x p.2.1 p.2.2))
    h.nodes

/-- Src lines 129-132: preprocessor then positional encoder applied to the
working (dirty) copy of the node buffer. -/
def dirtyNodes (m : SparseGCM α) (nodes : ℕ → ℕ → α) : ℕ → ℕ → α :=
  let d1 := match m.preprocessor with
    | some f => f nodes
    | none => nodes
  match m.positional_encoder with
  | some f => f d1
  | none => d1

/-- Src lines 123-126: the primary edge selector is invoked on the dirty node
buffer (still raw at that point) with existing edges/weights, `T`, `taus`, `B`;
without a selector the edges and weights pass through unchanged. -/
def selectorEW (m : SparseGCM α) (x : ℕ → ℕ → α) (taus : ℕ → ℕ) (B : ℕ)
    (h : Hidden α) : List (ℕ × ℕ) × List ℚ :=
  match m.edge_selectors with
  | some sel => sel (updatedNodes x taus B h) h.edges h.weights h.T taus B
  | none => (h.edges, h.weights)

/-- Src line 141: `node_feats = self.gnn(flat_nodes, edges, weights)`. -/
def nodeFeats (m : SparseGCM α) (x : ℕ → ℕ → α) (taus : ℕ → ℕ) (B : ℕ)
    (h : Hidden α) : List α :=
  m.gnn (flatten_nodes (dirtyNodes m (updatedNodes x taus B h)) h.T taus B).1
    (selectorEW m x taus B h).1 (selectorEW m x taus B h).2

/-- Src lines 151-153: `mx_dense = zeros_like(x); mx_dense[dense idxs] = mx`
with `mx = node_feats[output_node_idxs]` (line 144). -/
def mxDense (m : SparseGCM α) (x : ℕ → ℕ → α) (taus : ℕ → ℕ) (B : ℕ)
    (h : Hidden α) : ℕ → ℕ → α :=
  applyVals
    ((get_nonpadded_idxs h.T taus B).zip
      ((flatten_nodes (dirtyNodes m (updatedNodes x taus B h)) h.T taus B).2.map
        fun i => (nodeFeats m x taus B h).getD i 0))
    (fun _ _ => 0)

/-- `SparseGCM.forward` (src lines 63-167). Control flow, in source order:
base-case state construction (95-96), causality assertion (111), the
`tau_idxs.max()` reduction — which raises on an empty tensor — and the
capacity-overflow raise (113-114), node write (116), primary edge selector
(123-126), preprocessor and positional encoder on the dirty copy (129-132),
the auxiliary-edge-selector branch — which calls `self.edge_selectors` and
unpacks three values from a two-element result, so it always fails (133-136),
flatten, GNN and output-node extraction with bounds-checked advanced indexing
(140-144), dense scatter of the output (151-153), and the time advance
`T = T + taus` (166). -/
def forward (m : SparseGCM α) (x : ℕ → ℕ → α) (taus : ℕ → ℕ) (B : ℕ)
    (hidden : Option (Hidden α)) :
    Except GCMError ((ℕ → ℕ → α) × Hidden α) :=
  if ¬ (∀ e ∈ (hiddenOr m B hidden).edges, e.1 < e.2) then
    .error .causalityViolation
  else if get_new_node_idxs (hiddenOr m B hidden).T taus B = [] then
    .error .emptyMaxReduction
  else if (hiddenOr m B hidden).N ≤
      ((get_new_node_idxs (hiddenOr m B hidden).T taus B).map Prod.snd).foldr max 0 then
    .error .overflow
  else if m.aux_edge_selectors.isSome then
    .error (match m.edge_selectors with
      | none => GCMError.noneTypeNotCallable
      | some _ => GCMError.unpackValueError)
  else if ∃ i ∈ (flatten_nodes (dirtyNodes m (updatedNodes x taus B (hiddenOr m B hidden)))
      (hiddenOr m B hidden).T taus B).2,
      (nodeFeats m x taus B (hiddenOr m B hidden)).length ≤ i then
    .error .indexError
  else
    .ok (mxDense m x taus B (hiddenOr m B hidden),
      { N := (hiddenOr m B hidden).N
        nodes := updatedNodes x taus B (hiddenOr m B hidden)
        edges := (selectorEW m x taus B (hiddenOr m B hidden)).1
        weights := (selectorEW m x taus B (hiddenOr m B hidden)).2
        T := fun b => (hiddenOr m B hidden).T b + taus b })

/-- Dense-output entry of a `forward` result, when it succeeded. -/
def outAt (r : Except GCMError ((ℕ → ℕ → α) × Hidden α)) (b i : ℕ) : Option α :=
  match r with
  | .ok p => some (p.1 b i)
  | .error _ => none

/-- Node-buffer entry of the returned hidden state, when `forward` succeeded. -/
def nodeAt (r : Except GCMError ((ℕ → ℕ → α) × Hidden α)) (b i : ℕ) : Option α :=
  match r with
  | .ok p => some (p.2.nodes b i)
  | .error _ => none

/-- Live count `T_b` of the returned hidden state, when `forward` succeeded. -/
def stateT (r : Except GCMError ((ℕ → ℕ → α) × Hidden α)) (b : ℕ) : Option ℕ :=
  match r with
  | .ok p => some (p.2.T b)
  | .error _ => none

/-- The error of a failed `forward` result, if any. -/
def errOf (r : Except GCMError ((ℕ → ℕ → α) × Hidden α)) : Option GCMError :=
  match r with
  | .ok _ => none
  | .error e => some e

/-- Whether a `forward` result is a success. -/
def isOkE (r : Except GCMError ((ℕ → ℕ → α) × Hidden α)) : Bool :=
  match r with
  | .ok _ => true
  | .error _ => false

/-- Per-batch-element sum of the chunk lengths of a list of chunk `taus`. -/
def tausTotal : List (ℕ → ℕ) → ℕ → ℕ
  | [], _ => 0
  | tc :: rest, b => tc b + tausTotal rest b

/-- Chunk-by-chunk driver: feed successive chunks of the full input `x` to
`forward`, threading the returned hidden state; `start b` is the number of
timesteps of batch element `b` consumed by earlier chunks. Returns the last
chunk's dense output together with the final hidden state. -/
def threadChunks (m : SparseGCM α) (B : ℕ) (x : ℕ → ℕ → α) :
    Hidden α → (ℕ → ℕ) → List (ℕ → ℕ) →
      Except GCMError ((ℕ → ℕ → α) × Hidden α)
  | h, _, [] => .ok (fun _ _ => 0, h)
  | h, start, tc :: rest =>
    match forward m (fun b j => x b (start b + j)) tc B (some h) with
    | .error e => .error e
    | .ok p =>
      match rest with
      | [] => .ok p
      | tc2 :: rest2 => threadChunks m B x p.2 (fun b => start b + tc b) (tc2 :: rest2)

/-- `SparseGCM.wrap_overflow` (src lines 191-223) over dense per-batch node,
adjacency and weight matrices. `N = nodes.shape[1]`; `wNumel` stands for
`weights.numel()`; `num_nodes` is a signed (`torch.long`) count. Batch
elements with `num_nodes + 1 > N` have their zeroth node row and zeroth
adjacency/weight row and column zeroed and rolled by `-1` (torch.roll:
entry `i` receives entry `(i+1) % N`), and their count decremented. -/
def wrap_overflow (nodes : ℕ → ℕ → α) (adj weights : ℕ → ℕ → ℕ → ℚ)
    (wNumel : ℕ) (num_nodes : ℕ → ℤ) (N : ℕ) :
    (ℕ → ℕ → α) × (ℕ → ℕ → ℕ → ℚ) × (ℕ → ℕ → ℕ → ℚ) × (ℕ → ℤ) :=
  let ovf : ℕ → Prop := fun b => (N : ℤ) < num_nodes b + 1
  let nodesZ : ℕ → ℕ → α := fun b i =>
    if ovf b ∧ i = 0 then 0 else nodes b i
  let adjZ : ℕ → ℕ → ℕ → ℚ := fun b i j =>
    if ovf b ∧ (i = 0 ∨ j = 0) then 0 else adj b i j
  let weightsZ : ℕ → ℕ → ℕ → ℚ := fun b i j =>
    if ovf b ∧ (i = 0 ∨ j = 0) then 0 else weights b i j
  let nodes1 : ℕ → ℕ → α := fun b i =>
    if ovf b then nodesZ b ((i + 1) % N) else nodes b i
  let adj1 : ℕ → ℕ → ℕ → ℚ := fun b i j =>
    if ovf b then adjZ b ((i + 1) % N) ((j + 1) % N) else adj b i j
  let weights1 : ℕ → ℕ → ℕ → ℚ :=
    if wNumel ≠ 0 then
      fun b i j =>
        if ovf b then weightsZ b ((i + 1) % N) ((j + 1) % N) else weights b i j
    else weights
  let num1 : ℕ → ℤ := fun b => if ovf b then num_nodes b - 1 else num_nodes b
  (nodes1, adj1, weights1, num1)

/-- Shapes of the four tensors built by `get_initial_hidden_state`
(src lines 54-61): `nodes : [B, graph_size, feats]`, `edges : [B, 2, 0]`,
`weights : [B, 1, 0]`, `T : [B]`. -/
def initialHiddenShapes (B gs feats : ℕ) :
    List ℕ × List ℕ × List ℕ × List ℕ :=
  ([B, gs, feats], [B, 2, 0], [B, 1, 0], [B])

/-- The hidden-argument shape contract `forward` declares (src lines 68-76):
nodes `[B, N, feats]`, edges `[2, E]`, weights `[E]`, `T` `[B]`, for some
edge count `E`. -/
def hiddenShapesDeclared (B N feats E : ℕ)
    (nsh esh wsh tsh : List ℕ) : Prop :=
  nsh = [B, N, feats] ∧ esh = [2, E] ∧ wsh = [E] ∧ tsh = [B]

/-- The typeguard boundary on the `hidden` argument: `None` is accepted
outright (the base case builds the initial state only after this check);
an explicit hidden tuple must match the declared shapes for some `E`. -/
def forwardAcceptsHidden (B N feats : ℕ)
    (hshapes : Option (List ℕ × List ℕ × List ℕ × List ℕ)) : Prop :=
  match hshapes with
  | none => True
  | some s => ∃ E, hiddenShapesDeclared B N feats E s.1 s.2.1 s.2.2.1 s.2.2.2

/-! ### Concrete instances used by the spec's scenarios -/

/-- Identity GNN: returns the flat node table unchanged (spec §8 concrete
scenario, "identity GNN"). -/
def idGNN : List ℚ → List (ℕ × ℕ) → List ℚ → List ℚ := fun flat _ _ => flat

/-- Module with identity GNN, capacity 4 and no optional collaborators. -/
def mIdentity : SparseGCM ℚ := { gnn := idGNN, graph_size := 4 }

/-- The spec §8 concrete input `x = [[[1.0],[2.0]], [[3.0],[0.0]]]`. -/
def xScenario : ℕ → ℕ → ℚ := fun b j =>
  if b = 0 then (if j = 0 then 1 else if j = 1 then 2 else 0)
  else if b = 1 ∧ j = 0 then 3 else 0

/-- The spec §8 concrete `taus = [2, 1]`. -/
def tausScenario : ℕ → ℕ := fun b => if b = 0 then 2 else if b = 1 then 1 else 0

/-- Constant all-ones input. -/
def xOnes : ℕ → ℕ → ℚ := fun _ _ => 1

/-- One new timestep per batch element. -/
def tausOne : ℕ → ℕ := fun _ => 1

/-- `taus = [1, 0]`: batch element 1 receives no new nodes. -/
def tausPad : ℕ → ℕ := fun b => if b = 0 then 1 else 0

/-- Empty hidden state with capacity 4 (explicitly supplied variant of the
initial state). -/
def emptyState4 : Hidden ℚ :=
  { N := 4, nodes := fun _ _ => 0, edges := [], weights := [], T := fun _ => 0 }

/-- Hidden state at capacity: `N = 2` and `T_b = 2`, the spec §8 overflow
scenario. -/
def hOverflow : Hidden ℚ :=
  { N := 2, nodes := fun _ _ => 0, edges := [], weights := [], T := fun _ => 2 }

/-- Hidden state corrupted with a causality-violating edge `1 → 0`. -/
def hBadEdge : Hidden ℚ :=
  { N := 4, nodes := fun _ _ => 0, edges := [(1, 0)], weights := [1], T := fun _ => 2 }

/-- Identity edge selector (returns edges and weights unchanged). -/
def selIdQ : EdgeSel ℚ := fun _ e w _ _ _ => (e, w)

/-- Module with both a primary and an auxiliary edge selector configured. -/
def mAuxBoth : SparseGCM ℚ :=
  { gnn := idGNN, edge_selectors := some selIdQ,
    aux_edge_selectors := some selIdQ, graph_size := 4 }

/-- Module with only an auxiliary edge selector configured. -/
def mAuxOnly : SparseGCM ℚ :=
  { gnn := idGNN, aux_edge_selectors := some selIdQ, graph_size := 4 }

/-- Deterministic edge selector that appends one fixed causal edge `(0, 1)`
with weight 1 on every invocation. -/
def selAppend : EdgeSel ℚ := fun _ e w _ _ _ => (e ++ [(0, 1)], w ++ [1])

/-- Deterministic GNN whose per-node output is the current number of edges:
sensitive to how often the edge selector has run. -/
def mCountEdges : SparseGCM ℚ :=
  { gnn := fun flat edges _ => flat.map fun _ => (edges.length : ℚ),
    edge_selectors := some selAppend, graph_size := 4 }

/-- Full-sequence input for the incremental-equivalence counterexample. -/
def xCount : ℕ → ℕ → ℚ := fun _ j => if j = 0 then 1 else if j = 1 then 2 else 0

/-- Two chunks of one timestep each. -/
def tausChunk : ℕ → ℕ := fun _ => 1

/-- The whole sequence at once: two timesteps. -/
def tausWhole : ℕ → ℕ := fun _ => 2

/-! ### Basic facts about the batch-major block lists -/

theorem rangeFlat_succ (f : ℕ → List β) (n : ℕ) :
    rangeFlat f (n + 1) = rangeFlat f n ++ f n := rfl

theorem mem_rangeFlat {f : ℕ → List β} {a : β} :
    ∀ {n : ℕ}, a ∈ rangeFlat f n ↔ ∃ b, b < n ∧ a ∈ f b := by
  intro n
  induction n with
  | zero => simp [rangeFlat]
  | succ n ih =>
    simp only [rangeFlat_succ, List.mem_append, ih]
    constructor
    · rintro (⟨b, hb, hm⟩ | hm)
      · exact ⟨b, by omega, hm⟩
      · exact ⟨n, by omega, hm⟩
    · rintro ⟨b, hb, hm⟩
      rcases Nat.lt_succ_iff_lt_or_eq.mp hb with h | h
      · exact Or.inl ⟨b, h, hm⟩
      · subst h; exact Or.inr hm

theorem length_rangeFlat (f : ℕ → List β) :
    ∀ n, (rangeFlat f n).length = rangeSum (fun b => (f b).length) n := by
  intro n
  induction n with
  | zero => rfl
  | succ n ih => simp [rangeFlat_succ, rangeSum, ih]

theorem map_rangeFlat (g : β → γ) (f : ℕ → List β) :
    ∀ n, (rangeFlat f n).map g = rangeFlat (fun b => (f b).map g) n := by
  intro n
  induction n with
  | zero => rfl
  | succ n ih => simp [rangeFlat_succ, ih]

theorem rangeSum_congr {g g' : ℕ → ℕ} (h : ∀ b, g b = g' b) :
    ∀ n, rangeSum g n = rangeSum g' n := by
  intro n
  induction n with
  | zero => rfl
  | succ n ih => simp [rangeSum, ih, h n]

theorem zip_rangeFlat (f : ℕ → List β) (g : ℕ → List γ)
    (hlen : ∀ b, (f b).length = (g b).length) :
    ∀ n, (rangeFlat f n).zip (rangeFlat g n) =
      rangeFlat (fun b => (f b).zip (g b)) n := by
  intro n
  induction n with
  | zero => rfl
  | succ n ih =>
    have hpre : (rangeFlat f n).length = (rangeFlat g n).length := by
      rw [length_rangeFlat, length_rangeFlat]
      exact rangeSum_congr hlen n
    simp [rangeFlat_succ, List.zip_append hpre, ih]

theorem rangeSum_le_of_lt (g : ℕ → ℕ) {b n : ℕ} (h : b < n) :
    rangeSum g b + g b ≤ rangeSum g n := by
  induction n with
  | zero => omega
  | succ n ih =>
    rcases Nat.lt_succ_iff_lt_or_eq.mp h with h' | h'
    · have := ih h'
      simp only [rangeSum]
      omega
    · subst h'
      simp [rangeSum]

/-! ### Scatter-assignment characterisation -/

omit [Zero α] in
theorem applyVals_append (ps qs : List ((ℕ × ℕ) × α)) (base : ℕ → ℕ → α) :
    applyVals (ps ++ qs) base = applyVals qs (applyVals ps base) := by
  simp [applyVals, List.foldl_append]

omit [Zero α] in
theorem applyVals_singleton (pv : (ℕ × ℕ) × α) (base : ℕ → ℕ → α) (b i : ℕ) :
    applyVals [pv] base b i =
      if b = pv.1.1 ∧ i = pv.1.2 then pv.2 else base b i := rfl

omit [Zero α] in
theorem applyVals_block (b0 c n : ℕ) (v : ℕ → α) (base : ℕ → ℕ → α) (b i : ℕ) :
    applyVals ((List.range n).map fun j => ((b0, c + j), v j)) base b i =
      if b = b0 ∧ c ≤ i ∧ i < c + n then v (i - c) else base b i := by
  induction n with
  | zero =>
    simp only [List.range_zero, List.map_nil, applyVals, List.foldl_nil]
    rw [if_neg (by omega)]
  | succ n ih =>
    rw [List.range_succ, List.map_append, applyVals_append, List.map_cons, List.map_nil,
      applyVals_singleton, ih]
    dsimp only
    by_cases hb : b = b0
    · subst hb
      split_ifs <;> first | rfl | omega | (congr 1 <;> omega)
    · split_ifs <;> first | rfl | omega | (congr 1 <;> omega)

omit [Zero α] in
theorem applyVals_blocks (c n : ℕ → ℕ) (v : ℕ → ℕ → α) (base : ℕ → ℕ → α)
    (B b i : ℕ) :
    applyVals
        (rangeFlat (fun b' => (List.range (n b')).map fun j => ((b', c b' + j), v b' j)) B)
        base b i =
      if b < B ∧ c b ≤ i ∧ i < c b + n b then v b (i - c b) else base b i := by
  induction B with
  | zero => simp [applyVals, rangeFlat]
  | succ B ih =>
    rw [rangeFlat_succ, applyVals_append, applyVals_block, ih]
    by_cases hb : b = B
    · subst hb
      by_cases hc : c b ≤ i ∧ i < c b + n b
      · rw [if_pos ⟨rfl, hc⟩, if_pos ⟨by omega, hc⟩]
      · rw [if_neg (by tauto), if_neg (by omega), if_neg (by tauto)]
    · rw [if_neg (by tauto)]
      by_cases hlt : b < B ∧ c b ≤ i ∧ i < c b + n b
      · rw [if_pos hlt, if_pos ⟨by omega, hlt.2⟩]
      · rw [if_neg hlt, if_neg (by intro hcon; exact hlt ⟨by omega, hcon.2⟩)]

/-! ### Maximum reduction (`tau_idxs.max()`) -/

theorem le_foldr_max {l : List ℕ} {a : ℕ} (h : a ∈ l) : a ≤ l.foldr max 0 := by
  induction l with
  | nil => cases h
  | cons x xs ih =>
    rcases List.mem_cons.mp h with h' | h'
    · subst h'; exact Nat.le_max_left _ _
    · exact le_trans (ih h') (Nat.le_max_right _ _)

theorem foldr_max_lt_iff (l : List ℕ) (N : ℕ) :
    l.foldr max 0 < N ↔ 0 < N ∧ ∀ a ∈ l, a < N := by
  induction l with
  | nil => simp
  | cons x xs ih =>
    simp only [List.foldr_cons, Nat.max_lt, ih, List.mem_cons]
    constructor
    · rintro ⟨hx, hN, hall⟩
      exact ⟨hN, by rintro a (rfl | ha); exact hx; exact hall a ha⟩
    · rintro ⟨hN, hall⟩
      exact ⟨hall x (Or.inl rfl), hN, fun a ha => hall a (Or.inr ha)⟩

/-! ### Index-planner and flattener characterisations -/

theorem flatten_nodes_fst (nodes : ℕ → ℕ → α) (T taus : ℕ → ℕ) (B : ℕ) :
    (flatten_nodes nodes T taus B).1 =
      rangeFlat (fun b => (List.range (T b + taus b)).map fun i => nodes b i) B := rfl

theorem flatten_nodes_snd (nodes : ℕ → ℕ → α) (T taus : ℕ → ℕ) (B : ℕ) :
    (flatten_nodes nodes T taus B).2 =
      rangeFlat (fun b => (List.range (taus b)).map
        fun j => flatOffset T taus b + T b + j) B := rfl

theorem mem_get_new_node_idxs {T taus : ℕ → ℕ} {B : ℕ} {p : ℕ × ℕ} :
    p ∈ get_new_node_idxs T taus B ↔
      ∃ b, b < B ∧ ∃ j, j < taus b ∧ p = (b, T b + j) := by
  rw [get_new_node_idxs, mem_rangeFlat]
  constructor
  · rintro ⟨b, hb, hm⟩
    obtain ⟨j, hj, rfl⟩ := List.mem_map.mp hm
    exact ⟨b, hb, j, List.mem_range.mp hj, rfl⟩
  · rintro ⟨b, hb, j, hj, rfl⟩
    exact ⟨b, hb, List.mem_map.mpr ⟨j, List.mem_range.mpr hj, rfl⟩⟩

theorem mem_flatten_snd {nodes : ℕ → ℕ → α} {T taus : ℕ → ℕ} {B i : ℕ} :
    i ∈ (flatten_nodes nodes T taus B).2 ↔
      ∃ b, b < B ∧ ∃ j, j < taus b ∧ i = flatOffset T taus b + T b + j := by
  rw [flatten_nodes_snd, mem_rangeFlat]
  constructor
  · rintro ⟨b, hb, hm⟩
    obtain ⟨j, hj, rfl⟩ := List.mem_map.mp hm
    exact ⟨b, hb, j, List.mem_range.mp hj, rfl⟩
  · rintro ⟨b, hb, j, hj, rfl⟩
    exact ⟨b, hb, List.mem_map.mpr ⟨j, List.mem_range.mpr hj, rfl⟩⟩

theorem flatten_fst_length (nodes : ℕ → ℕ → α) (T taus : ℕ → ℕ) (B : ℕ) :
    (flatten_nodes nodes T taus B).1.length = flatOffset T taus B := by
  rw [flatten_nodes_fst, length_rangeFlat]
  exact rangeSum_congr (fun b => by simp) B

theorem outIdx_lt_flat_length {nodes : ℕ → ℕ → α} {T taus : ℕ → ℕ} {B i : ℕ}
    (hmem : i ∈ (flatten_nodes nodes T taus B).2) :
    i < (flatten_nodes nodes T taus B).1.length := by
  rw [flatten_fst_length]
  obtain ⟨b, hb, j, hj, rfl⟩ := mem_flatten_snd.mp hmem
  have hle := rangeSum_le_of_lt (fun c => T c + taus c) hb
  dsimp only at hle
  unfold flatOffset
  omega

theorem get_new_node_idxs_ne_nil {T taus : ℕ → ℕ} {B : ℕ}
    (h : ∃ b, b < B ∧ 0 < taus b) :
    get_new_node_idxs T taus B ≠ [] := by
  obtain ⟨b, hb, hτ⟩ := h
  exact List.ne_nil_of_mem (mem_get_new_node_idxs.mpr ⟨b, hb, 0, hτ, rfl⟩)

theorem newIdxs_lt_of_cap {T taus : ℕ → ℕ} {B N : ℕ}
    (hB : ∃ b, b < B ∧ 0 < taus b)
    (hcap : ∀ b, b < B → T b + taus b ≤ N) :
    ((get_new_node_idxs T taus B).map Prod.snd).foldr max 0 < N := by
  rw [foldr_max_lt_iff]
  constructor
  · obtain ⟨b, hb, hτ⟩ := hB
    have := hcap b hb
    omega
  · intro a ha
    obtain ⟨p, hp, rfl⟩ := List.mem_map.mp ha
    obtain ⟨b, hb, j, hj, rfl⟩ := mem_get_new_node_idxs.mp hp
    have := hcap b hb
    simpa using by omega

theorem newIdxs_ge_of_mem {T taus : ℕ → ℕ} {B N : ℕ}
    (h : ∃ p ∈ get_new_node_idxs T taus B, N ≤ p.2) :
    N ≤ ((get_new_node_idxs T taus B).map Prod.snd).foldr max 0 := by
  obtain ⟨p, hp, hN⟩ := h
  exact le_trans hN (le_foldr_max (List.mem_map.mpr ⟨p, hp, rfl⟩))

/-! ### Pointwise characterisation of the node write and the dense output -/

theorem updatedNodes_apply (x : ℕ → ℕ → α) (taus : ℕ → ℕ) (B : ℕ)
    (h : Hidden α) (b i : ℕ) :
    updatedNodes x taus B h b i =
      if b < B ∧ h.T b ≤ i ∧ i < h.T b + taus b then x b (i - h.T b)
      else h.nodes b i := by
  have hblocks :
      ((get_new_node_idxs h.T taus B).zip (get_nonpadded_idxs h.T taus B)).map
        (fun p => (p.1, x p.2.1 p.2.2)) =
      rangeFlat (fun b' => (List.range (taus b')).map
        fun j => ((b', h.T b' + j), x b' j)) B := by
    rw [get_new_node_idxs, get_nonpadded_idxs]
    rw [zip_rangeFlat _ _ (fun b' => by simp), map_rangeFlat]
    congr 1
    funext b'
    rw [List.zip_map', List.map_map]
    rfl
  rw [updatedNodes, hblocks, applyVals_blocks]

theorem mxDense_apply (m : SparseGCM α) (x : ℕ → ℕ → α) (taus : ℕ → ℕ)
    (B : ℕ) (h : Hidden α) (b i : ℕ) :
    mxDense m x taus B h b i =
      if b < B ∧ i < taus b then
        (nodeFeats m x taus B h).getD (flatOffset h.T taus b + h.T b + i) 0
      else 0 := by
  have hblocks :
      (get_nonpadded_idxs h.T taus B).zip
        ((flatten_nodes (dirtyNodes m (updatedNodes x taus B h)) h.T taus B).2.map
          fun i => (nodeFeats m x taus B h).getD i 0) =
      rangeFlat (fun b' => (List.range (taus b')).map
        fun j => ((b', 0 + j),
          (nodeFeats m x taus B h).getD (flatOffset h.T taus b' + h.T b' + j) 0)) B := by
    rw [get_nonpadded_idxs, flatten_nodes_snd, map_rangeFlat]
    rw [zip_rangeFlat _ _ (fun b' => by simp)]
    congr 1
    funext b'
    rw [List.map_map, List.zip_map']
    exact List.map_congr_left fun j _ => by simp
  rw [mxDense, hblocks, applyVals_blocks]
  by_cases hc : b < B ∧ i < taus b
  · rw [if_pos ⟨hc.1, by omega, by omega⟩, if_pos hc]
    congr 2
  · rw [if_neg (by omega), if_neg hc]

/-! ### Success and failure structure of `forward` -/

theorem forward_ok_inv (m : SparseGCM α) (x : ℕ → ℕ → α) (taus : ℕ → ℕ)
    (B : ℕ) (hidden : Option (Hidden α)) (p : (ℕ → ℕ → α) × Hidden α)
    (hok : forward m x taus B hidden = .ok p) :
    p = (mxDense m x taus B (hiddenOr m B hidden),
      { N := (hiddenOr m B hidden).N
        nodes := updatedNodes x taus B (hiddenOr m B hidden)
        edges := (selectorEW m x taus B (hiddenOr m B hidden)).1
        weights := (selectorEW m x taus B (hiddenOr m B hidden)).2
        T := fun b => (hiddenOr m B hidden).T b + taus b }) := by
  unfold forward at hok
  split_ifs at hok
  all_goals first
    | exact ((Except.ok.injEq _ _).mp hok).symm
    | simp at hok

theorem forward_eq_ok (m : SparseGCM α) (x : ℕ → ℕ → α) (taus : ℕ → ℕ)
    (B : ℕ) (h : Hidden α)
    (hcaus : ∀ e ∈ h.edges, e.1 < e.2)
    (hne : get_new_node_idxs h.T taus B ≠ [])
    (hmax : ((get_new_node_idxs h.T taus B).map Prod.snd).foldr max 0 < h.N)
    (haux : m.aux_edge_selectors = none)
    (hidx : ∀ i ∈ (flatten_nodes (dirtyNodes m (updatedNodes x taus B h)) h.T taus B).2,
      i < (nodeFeats m x taus B h).length) :
    forward m x taus B (some h) =
      .ok (mxDense m x taus B h,
        { N := h.N
          nodes := updatedNodes x taus B h
          edges := (selectorEW m x taus B h).1
          weights := (selectorEW m x taus B h).2
          T := fun b => h.T b + taus b }) := by
  have hh : hiddenOr m B (some h) = h := rfl
  unfold forward
  rw [hh, if_neg (not_not_intro hcaus), if_neg hne, if_neg (by omega),
    if_neg (by simp [haux]),
    if_neg (by rintro ⟨i, hi, hlen⟩; exact absurd (hidx i hi) (by omega))]

theorem selectorEW_none {m : SparseGCM α} (hsel : m.edge_selectors = none)
    (x : ℕ → ℕ → α) (taus : ℕ → ℕ) (B : ℕ) (h : Hidden α) :
    selectorEW m x taus B h = (h.edges, h.weights) := by
  rw [selectorEW, hsel]

theorem nodeFeats_length (m : SparseGCM α)
    (hlen : ∀ ns es ws, (m.gnn ns es ws).length = ns.length)
    (x : ℕ → ℕ → α) (taus : ℕ → ℕ) (B : ℕ) (h : Hidden α) :
    (nodeFeats m x taus B h).length = flatOffset h.T taus B := by
  rw [nodeFeats, hlen, flatten_fst_length]

/-- Packaged success lemma: with a node-count-preserving GNN, causal incoming
edges, at least one new node somewhere in the batch, enough capacity in every
batch row, and no auxiliary selector, `forward` succeeds and returns the
explicitly described output and state. -/
theorem forward_ok_of (m : SparseGCM α) (x : ℕ → ℕ → α) (taus : ℕ → ℕ)
    (B : ℕ) (h : Hidden α)
    (hlen : ∀ ns es ws, (m.gnn ns es ws).length = ns.length)
    (hcaus : ∀ e ∈ h.edges, e.1 < e.2)
    (hnz : ∃ b, b < B ∧ 0 < taus b)
    (hcap : ∀ b, b < B → h.T b + taus b ≤ h.N)
    (haux : m.aux_edge_selectors = none) :
    forward m x taus B (some h) =
      .ok (mxDense m x taus B h,
        { N := h.N
          nodes := updatedNodes x taus B h
          edges := (selectorEW m x taus B h).1
          weights := (selectorEW m x taus B h).2
          T := fun b => h.T b + taus b }) := by
  refine forward_eq_ok m x taus B h hcaus (get_new_node_idxs_ne_nil hnz)
    (newIdxs_lt_of_cap hnz hcap) haux ?_
  intro i hi
  rw [nodeFeats_length m hlen]
  rw [← flatten_fst_length (dirtyNodes m (updatedNodes x taus B h)) h.T taus B]
  exact outIdx_lt_flat_length hi

/-! ### Claim theorems -/

/-- Claim C2: with batch size 2, capacity `N = 4`, feature width 1, no edge
selectors, an identity GNN, input `x = [[[1.0],[2.0]], [[3.0],[0.0]]]`,
`taus = [2, 1]` and no prior hidden state, `forward` returns a state with
`T = [2, 1]`, `nodes[0, 0:2] = [1.0, 2.0]`, `nodes[1, 0:1] = [3.0]`, and a
dense output equal to the identity pass-through at real positions and zero at
the padding position `(batch 1, time 1)`. -/
theorem C2_concrete_scenario :
    stateT (forward mIdentity xScenario tausScenario 2 none) 0 = some 2 ∧
    stateT (forward mIdentity xScenario tausScenario 2 none) 1 = some 1 ∧
    nodeAt (forward mIdentity xScenario tausScenario 2 none) 0 0 = some 1 ∧
    nodeAt (forward mIdentity xScenario tausScenario 2 none) 0 1 = some 2 ∧
    nodeAt (forward mIdentity xScenario tausScenario 2 none) 1 0 = some 3 ∧
    outAt (forward mIdentity xScenario tausScenario 2 none) 0 0 = some 1 ∧
    outAt (forward mIdentity xScenario tausScenario 2 none) 0 1 = some 2 ∧
    outAt (forward mIdentity xScenario tausScenario 2 none) 1 0 = some 3 ∧
    outAt (forward mIdentity xScenario tausScenario 2 none) 1 1 = some 0 := by
  decide

/-- Claim C3: whenever some planned write slot index reaches the capacity
`N` (and the supplied edges pass the causality assertion that precedes the
overflow check), `forward` raises the overflow error — returning no state at
all, so nothing is written past the buffer. -/
theorem C3_capacity_overflow (m : SparseGCM α) (x : ℕ → ℕ → α)
    (taus : ℕ → ℕ) (B : ℕ) (h : Hidden α)
    (hcaus : ∀ e ∈ h.edges, e.1 < e.2)
    (hover : ∃ p ∈ get_new_node_idxs h.T taus B, h.N ≤ p.2) :
    forward m x taus B (some h) = .error .overflow := by
  have hne : get_new_node_idxs h.T taus B ≠ [] := by
    obtain ⟨p, hp, -⟩ := hover
    exact List.ne_nil_of_mem hp
  have hmax := newIdxs_ge_of_mem hover
  have hh : hiddenOr m B (some h) = h := rfl
  unfold forward
  rw [hh, if_neg (not_not_intro hcaus), if_neg hne, if_pos hmax]

/-- Witness for C3, the spec §8 overflow scenario: capacity `N = 2`, a batch
element with `T_b = 2` and `tau_b = 1`. -/
theorem C3_capacity_overflow_witness :
    (∀ e ∈ hOverflow.edges, e.1 < e.2) ∧
    (∃ p ∈ get_new_node_idxs hOverflow.T tausOne 1, hOverflow.N ≤ p.2) ∧
    forward mIdentity xOnes tausOne 1 (some hOverflow) = .error .overflow :=
  ⟨by decide, by decide,
    C3_capacity_overflow mIdentity xOnes tausOne 1 hOverflow (by decide) (by decide)⟩

/-- Claim C4: at the start of a `forward` call (before any node is written),
a hidden state containing an edge with source not strictly below destination
makes `forward` fail with the causality assertion; if every edge satisfies
`source < destination` the check passes (whatever else happens, the result is
never the causality error). -/
theorem C4_causality_check (m : SparseGCM α) (x : ℕ → ℕ → α)
    (taus : ℕ → ℕ) (B : ℕ) (h : Hidden α) :
    ((∃ e ∈ h.edges, e.2 ≤ e.1) →
      forward m x taus B (some h) = .error .causalityViolation) ∧
    ((∀ e ∈ h.edges, e.1 < e.2) →
      forward m x taus B (some h) ≠ .error .causalityViolation) := by
  constructor
  · rintro ⟨e, he, hle⟩
    have hnot : ¬ (∀ e ∈ (hiddenOr m B (some h)).edges, e.1 < e.2) := by
      intro hall
      exact absurd (hall e he) (by omega)
    unfold forward
    rw [if_pos hnot]
  · intro hcaus
    have hh : hiddenOr m B (some h) = h := rfl
    unfold forward
    rw [hh, if_neg (not_not_intro hcaus)]
    split_ifs <;> (try simp) <;> (cases m.edge_selectors <;> simp)

/-- Witness for C4: an edge `1 → 0` triggers the causality failure; an edge-free
state never produces it. -/
theorem C4_causality_check_witness :
    forward mIdentity xOnes tausOne 1 (some hBadEdge) = .error .causalityViolation ∧
    forward mIdentity xOnes tausOne 1 (some emptyState4) ≠ .error .causalityViolation :=
  ⟨(C4_causality_check mIdentity xOnes tausOne 1 hBadEdge).1 ⟨(1, 0), by decide, by decide⟩,
   (C4_causality_check mIdentity xOnes tausOne 1 emptyState4).2 (by decide)⟩

/-- Claim C5: in every successful `forward` call, a batch element with
`tau_b = 0` gets an all-zero slice of the dense output and an unchanged live
count `T_b`. -/
theorem C5_padding_transparency (m : SparseGCM α) (x : ℕ → ℕ → α)
    (taus : ℕ → ℕ) (B : ℕ) (h : Hidden α)
    (hok : isOkE (forward m x taus B (some h)) = true)
    (b : ℕ) (hb : b < B) (hτ : taus b = 0) :
    (∀ j, outAt (forward m x taus B (some h)) b j = some 0) ∧
    stateT (forward m x taus B (some h)) b = some (h.T b) := by
  rcases hres : forward m x taus B (some h) with e | p
  · rw [hres] at hok
    exact absurd hok (by simp [isOkE])
  · have hp := forward_ok_inv m x taus B (some h) p hres
    have hh : hiddenOr m B (some h) = h := rfl
    rw [hh] at hp
    constructor
    · intro j
      simp only [outAt, hp]
      rw [mxDense_apply, if_neg (by omega)]
    · simp only [stateT, hp]
      simp [hτ]

/-- Witness for C5: `taus = [1, 0]`, batch element 1 sees zero output and an
unchanged live count. -/
theorem C5_padding_transparency_witness :
    outAt (forward mIdentity xOnes tausPad 2 (some emptyState4)) 1 3 = some 0 ∧
    stateT (forward mIdentity xOnes tausPad 2 (some emptyState4)) 1 =
      some (emptyState4.T 1) :=
  ⟨(C5_padding_transparency mIdentity xOnes tausPad 2 emptyState4
      (by decide) 1 (by decide) (by decide)).1 3,
   (C5_padding_transparency mIdentity xOnes tausPad 2 emptyState4
      (by decide) 1 (by decide) (by decide)).2⟩

/-- Claim C6: every `forward` call that completes without error returns a
state whose live counts satisfy `T_b(after) = T_b(before) + tau_b` for every
batch element (with the base-case initial state as the before-state when
`hidden` is `None`). -/
theorem C6_live_count_monotonicity (m : SparseGCM α) (x : ℕ → ℕ → α)
    (taus : ℕ → ℕ) (B : ℕ) (hidden : Option (Hidden α))
    (hok : isOkE (forward m x taus B hidden) = true) (b : ℕ) :
    stateT (forward m x taus B hidden) b =
      some ((hiddenOr m B hidden).T b + taus b) := by
  rcases hres : forward m x taus B hidden with e | p
  · rw [hres] at hok
    exact absurd hok (by simp [isOkE])
  · have hp := forward_ok_inv m x taus B hidden p hres
    simp only [stateT, hp]

/-- Witness for C6: the concrete scenario call advances `T_0` from 0 to 2. -/
theorem C6_live_count_monotonicity_witness :
    stateT (forward mIdentity xScenario tausScenario 2 none) 0 =
      some ((hiddenOr mIdentity 2 none).T 0 + tausScenario 0) :=
  C6_live_count_monotonicity mIdentity xScenario tausScenario 2 none (by decide) 0

/-- Claim C7: in every successful `forward` call the returned node buffer
holds only raw content — the prior nodes plus the raw `x` rows at the planned
slots — for every configuration of preprocessor, positional encoder, GNN and
selectors (the formula on the right mentions none of them), so no feature
transform leaks into the persisted state. -/
theorem C7_raw_node_discipline (m : SparseGCM α) (x : ℕ → ℕ → α)
    (taus : ℕ → ℕ) (B : ℕ) (h : Hidden α)
    (hok : isOkE (forward m x taus B (some h)) = true)
    (b : ℕ) (hb : b < B) (i : ℕ) :
    nodeAt (forward m x taus B (some h)) b i =
      some (if h.T b ≤ i ∧ i < h.T b + taus b then x b (i - h.T b)
            else h.nodes b i) := by
  rcases hres : forward m x taus B (some h) with e | p
  · rw [hres] at hok
    exact absurd hok (by simp [isOkE])
  · have hp := forward_ok_inv m x taus B (some h) p hres
    have hh : hiddenOr m B (some h) = h := rfl
    rw [hh] at hp
    simp only [nodeAt, hp]
    rw [updatedNodes_apply]
    by_cases hP : h.T b ≤ i ∧ i < h.T b + taus b
    · rw [if_pos ⟨hb, hP.1, hP.2⟩, if_pos hP]
    · rw [if_neg (by tauto), if_neg hP]

/-- Witness for C7: in the concrete scenario, slot `(0,0)` of the returned
state holds the raw input row `x[0,0]`. -/
theorem C7_raw_node_discipline_witness :
    nodeAt (forward mIdentity xScenario tausScenario 2 (some emptyState4)) 0 0 =
      some (if emptyState4.T 0 ≤ 0 ∧ 0 < emptyState4.T 0 + tausScenario 0
            then xScenario 0 (0 - emptyState4.T 0) else emptyState4.nodes 0 0) :=
  C7_raw_node_discipline mIdentity xScenario tausScenario 2 emptyState4
    (by decide) 0 (by decide) 0

/-- Claim C8 (code bug, src lines 133-136): with an auxiliary edge selector
configured, the auxiliary branch calls `self.edge_selectors` — the primary
selector — and unpacks three values from its two-element result, so the call
fails (`ValueError`-style) instead of invoking the auxiliary selector; with no
primary selector configured it calls `None` (`TypeError`-style). -/
theorem C8_aux_selector_misdispatch :
    errOf (forward mAuxBoth xOnes tausOne 1 (some emptyState4)) =
      some .unpackValueError ∧
    errOf (forward mAuxOnly xOnes tausOne 1 (some emptyState4)) =
      some .noneTypeNotCallable := by
  decide

/-- Claim C10: the initial hidden state's edge and weight tensors have shapes
`[B, 2, 0]` and `[B, 1, 0]`, which match the declared hidden-argument contract
(`edges : [2, E]`, `weights : [E]`) for no `E`; the typeguard boundary rejects
it when supplied explicitly and accepts only the `hidden = None` base case. -/
theorem C10_initial_state_interface_mismatch (B gs feats : ℕ) :
    (∀ E, ¬ hiddenShapesDeclared B gs feats E
        (initialHiddenShapes B gs feats).1 (initialHiddenShapes B gs feats).2.1
        (initialHiddenShapes B gs feats).2.2.1
        (initialHiddenShapes B gs feats).2.2.2) ∧
    ¬ forwardAcceptsHidden B gs feats (some (initialHiddenShapes B gs feats)) ∧
    forwardAcceptsHidden B gs feats none := by
  refine ⟨?_, ?_, trivial⟩
  · intro E hE
    rcases hE with ⟨-, hedges, -, -⟩
    simp [initialHiddenShapes] at hedges
  · rintro ⟨E, -, hedges, -, -⟩
    simp [initialHiddenShapes] at hedges

/-- Witness for C10 at concrete sizes `B = 1`, `graph_size = 128`,
`feats = 3`, `E = 0`. -/
theorem C10_initial_state_interface_mismatch_witness :
    ¬ hiddenShapesDeclared 1 128 3 0
        (initialHiddenShapes 1 128 3).1 (initialHiddenShapes 1 128 3).2.1
        (initialHiddenShapes 1 128 3).2.2.1 (initialHiddenShapes 1 128 3).2.2.2 ∧
    ¬ forwardAcceptsHidden 1 128 3 (some (initialHiddenShapes 1 128 3)) ∧
    forwardAcceptsHidden 1 128 3 none :=
  ⟨(C10_initial_state_interface_mismatch 1 128 3).1 0,
   (C10_initial_state_interface_mismatch 1 128 3).2.1,
   (C10_initial_state_interface_mismatch 1 128 3).2.2⟩

/-- Claim C9: `wrap_overflow` treats each batch element independently. An
overflowed element (`num_nodes + 1 > N`) has its zeroth node row and zeroth
adjacency (and weight, when the weight tensor is non-empty) row and column
deleted, the remaining entries shifted up by one with a freed (zero) final
row/column, and its count decremented by one; a non-overflowed element is left
entirely unchanged in nodes, adjacency, weights and count. -/
theorem C9_wrap_overflow_eviction (nodes : ℕ → ℕ → ℚ)
    (adj weights : ℕ → ℕ → ℕ → ℚ) (wNumel : ℕ) (num_nodes : ℕ → ℤ)
    (N b : ℕ) :
    ((N : ℤ) < num_nodes b + 1 →
      (∀ i, i < N →
        (wrap_overflow nodes adj weights wNumel num_nodes N).1 b i =
          if i = N - 1 then 0 else nodes b (i + 1)) ∧
      (∀ i j, i < N → j < N →
        (wrap_overflow nodes adj weights wNumel num_nodes N).2.1 b i j =
          if i = N - 1 ∨ j = N - 1 then 0 else adj b (i + 1) (j + 1)) ∧
      (wNumel ≠ 0 → ∀ i j, i < N → j < N →
        (wrap_overflow nodes adj weights wNumel num_nodes N).2.2.1 b i j =
          if i = N - 1 ∨ j = N - 1 then 0 else weights b (i + 1) (j + 1)) ∧
      (wrap_overflow nodes adj weights wNumel num_nodes N).2.2.2 b =
        num_nodes b - 1) ∧
    (¬ (N : ℤ) < num_nodes b + 1 →
      (∀ i, (wrap_overflow nodes adj weights wNumel num_nodes N).1 b i =
        nodes b i) ∧
      (∀ i j, (wrap_overflow nodes adj weights wNumel num_nodes N).2.1 b i j =
        adj b i j) ∧
      (∀ i j, (wrap_overflow nodes adj weights wNumel num_nodes N).2.2.1 b i j =
        weights b i j) ∧
      (wrap_overflow nodes adj weights wNumel num_nodes N).2.2.2 b =
        num_nodes b) := by
  constructor
  · intro hovf
    refine ⟨?_, ?_, ?_, ?_⟩
    · intro i hi
      simp only [wrap_overflow, if_pos hovf]
      by_cases hlast : i = N - 1
      · have hmod : (i + 1) % N = 0 := by
          have : i + 1 = N := by omega
          simp [this]
        rw [hmod, if_pos ⟨hovf, rfl⟩, if_pos hlast]
      · have hmod : (i + 1) % N = i + 1 := Nat.mod_eq_of_lt (by omega)
        rw [hmod, if_neg (by omega), if_neg hlast]
    · intro i j hi hj
      simp only [wrap_overflow, if_pos hovf]
      by_cases hlast : i = N - 1 ∨ j = N - 1
      · have hz : (i + 1) % N = 0 ∨ (j + 1) % N = 0 := by
          rcases hlast with hl | hl
          · left
            have heq : i + 1 = N := by omega
            simp [heq]
          · right
            have heq : j + 1 = N := by omega
            simp [heq]
        rw [if_pos ⟨hovf, hz⟩, if_pos hlast]
      · have hmi : (i + 1) % N = i + 1 := Nat.mod_eq_of_lt (by omega)
        have hmj : (j + 1) % N = j + 1 := Nat.mod_eq_of_lt (by omega)
        rw [hmi, hmj, if_neg (by omega), if_neg hlast]
    · intro hw i j hi hj
      simp only [wrap_overflow, if_pos hovf, if_pos hw]
      by_cases hlast : i = N - 1 ∨ j = N - 1
      · have hz : (i + 1) % N = 0 ∨ (j + 1) % N = 0 := by
          rcases hlast with hl | hl
          · left
            have heq : i + 1 = N := by omega
            simp [heq]
          · right
            have heq : j + 1 = N := by omega
            simp [heq]
        rw [if_pos ⟨hovf, hz⟩, if_pos hlast]
      · have hmi : (i + 1) % N = i + 1 := Nat.mod_eq_of_lt (by omega)
        have hmj : (j + 1) % N = j + 1 := Nat.mod_eq_of_lt (by omega)
        rw [hmi, hmj, if_neg (by omega), if_neg hlast]
    · simp only [wrap_overflow, if_pos hovf]
  · intro hno
    refine ⟨?_, ?_, ?_, ?_⟩
    · intro i
      simp only [wrap_overflow, if_neg hno]
    · intro i j
      simp only [wrap_overflow, if_neg hno]
    · intro i j
      simp only [wrap_overflow]
      split_ifs <;> simp_all
    · simp only [wrap_overflow, if_neg hno]

/-- Witness for C9: `N = 2`, `num_nodes = [2, 1]` — batch element 0 overflows
and is shifted, batch element 1 is untouched. -/
theorem C9_wrap_overflow_eviction_witness :
    (wrap_overflow (fun b i => (10 * b + i : ℚ)) (fun _ i j => (i + j : ℚ))
        (fun _ i j => (i * j : ℚ)) 4
        (fun b => if b = 0 then 2 else 1) 2).1 0 0 = 10 * 0 + 1 ∧
    (wrap_overflow (fun b i => (10 * b + i : ℚ)) (fun _ i j => (i + j : ℚ))
        (fun _ i j => (i * j : ℚ)) 4
        (fun b => if b = 0 then 2 else 1) 2).1 0 1 = 0 ∧
    (wrap_overflow (fun b i => (10 * b + i : ℚ)) (fun _ i j => (i + j : ℚ))
        (fun _ i j => (i * j : ℚ)) 4
        (fun b => if b = 0 then 2 else 1) 2).2.2.2 0 = 2 - 1 ∧
    (wrap_overflow (fun b i => (10 * b + i : ℚ)) (fun _ i j => (i + j : ℚ))
        (fun _ i j => (i * j : ℚ)) 4
        (fun b => if b = 0 then 2 else 1) 2).1 1 1 = 10 * 1 + 1 ∧
    (wrap_overflow (fun b i => (10 * b + i : ℚ)) (fun _ i j => (i + j : ℚ))
        (fun _ i j => (i * j : ℚ)) 4
        (fun b => if b = 0 then 2 else 1) 2).2.2.2 1 = 1 := by
  have H0 := C9_wrap_overflow_eviction (fun b i => (10 * b + i : ℚ))
    (fun _ i j => (i + j : ℚ)) (fun _ i j => (i * j : ℚ)) 4
    (fun b => if b = 0 then 2 else 1) 2 0
  have H1 := C9_wrap_overflow_eviction (fun b i => (10 * b + i : ℚ))
    (fun _ i j => (i + j : ℚ)) (fun _ i j => (i * j : ℚ)) 4
    (fun b => if b = 0 then 2 else 1) 2 1
  refine ⟨?_, ?_, ?_, ?_, ?_⟩
  · have := (H0.1 (by norm_num)).1 0 (by norm_num)
    simpa using this
  · have := (H0.1 (by norm_num)).1 1 (by norm_num)
    simpa using this
  · have := (H0.1 (by norm_num)).2.2.2
    simpa using this
  · have := (H1.2 (by norm_num)).1 1
    simpa using this
  · have := (H1.2 (by norm_num)).2.2.2
    simpa using this

/-! ### Chunk threading (claim C1) -/

theorem tausTotal_append (l1 l2 : List (ℕ → ℕ)) (b : ℕ) :
    tausTotal (l1 ++ l2) b = tausTotal l1 b + tausTotal l2 b := by
  induction l1 with
  | nil => simp [tausTotal]
  | cons tc rest ih => simp [tausTotal, ih, Nat.add_assoc]

theorem rangeFlat_congr {f g : ℕ → List β} (h : ∀ b, f b = g b) :
    ∀ n, rangeFlat f n = rangeFlat g n := by
  intro n
  induction n with
  | zero => rfl
  | succ n ih => simp [rangeFlat_succ, ih, h n]

theorem threadChunks_singleton (m : SparseGCM α) (B : ℕ) (x : ℕ → ℕ → α)
    (h : Hidden α) (start tc : ℕ → ℕ) :
    threadChunks m B x h start [tc] =
      match forward m (fun b j => x b (start b + j)) tc B (some h) with
      | .error e => .error e
      | .ok p => .ok p := by
  rw [threadChunks]

theorem threadChunks_cons_of_ne (m : SparseGCM α) (B : ℕ) (x : ℕ → ℕ → α)
    (h : Hidden α) (start tc : ℕ → ℕ) (rest : List (ℕ → ℕ)) (hne : rest ≠ []) :
    threadChunks m B x h start (tc :: rest) =
      match forward m (fun b j => x b (start b + j)) tc B (some h) with
      | .error e => .error e
      | .ok p => threadChunks m B x p.2 (fun b => start b + tc b) rest := by
  cases rest with
  | nil => exact absurd rfl hne
  | cons c2 r2 =>
    rw [threadChunks]

/-- One no-selector step: `forward` succeeds and the new state differs from
the old one only by the raw node write and the advanced `T`. -/
theorem forward_step_char (m : SparseGCM α) (x1 : ℕ → ℕ → α) (tc : ℕ → ℕ)
    (B : ℕ) (h : Hidden α)
    (hlen : ∀ ns es ws, (m.gnn ns es ws).length = ns.length)
    (hsel : m.edge_selectors = none) (haux : m.aux_edge_selectors = none)
    (hcaus : ∀ e ∈ h.edges, e.1 < e.2)
    (hnz : ∃ b, b < B ∧ 0 < tc b)
    (hcap : ∀ b, b < B → h.T b + tc b ≤ h.N) :
    ∃ out1 H1, forward m x1 tc B (some h) = .ok (out1, H1) ∧
      H1.N = h.N ∧ H1.edges = h.edges ∧ H1.weights = h.weights ∧
      (∀ b, H1.T b = h.T b + tc b) ∧
      (∀ b i, H1.nodes b i =
        if b < B ∧ h.T b ≤ i ∧ i < h.T b + tc b
        then x1 b (i - h.T b) else h.nodes b i) := by
  refine ⟨mxDense m x1 tc B h,
    { N := h.N
      nodes := updatedNodes x1 tc B h
      edges := (selectorEW m x1 tc B h).1
      weights := (selectorEW m x1 tc B h).2
      T := fun b => h.T b + tc b },
    forward_ok_of m x1 tc B h hlen hcaus hnz hcap haux,
    rfl, ?_, ?_, fun b => rfl, fun b i => updatedNodes_apply x1 tc B h b i⟩
  · rw [selectorEW_none hsel]
  · rw [selectorEW_none hsel]

/-- State evolution of chunk threading when no edge selectors are configured:
every chunk call succeeds, edges and weights thread through unchanged, `T`
advances by the chunk totals, and the node buffer accumulates exactly the raw
input rows of the consumed chunks. -/
theorem threadChunks_state (m : SparseGCM α) (B : ℕ) (x : ℕ → ℕ → α)
    (hlen : ∀ ns es ws, (m.gnn ns es ws).length = ns.length)
    (hsel : m.edge_selectors = none) (haux : m.aux_edge_selectors = none) :
    ∀ (cs : List (ℕ → ℕ)) (h : Hidden α) (start : ℕ → ℕ),
    (∀ e ∈ h.edges, e.1 < e.2) →
    (∀ tc ∈ cs, ∃ b, b < B ∧ 0 < tc b) →
    (∀ b, b < B → h.T b + tausTotal cs b ≤ h.N) →
    ∃ p, threadChunks m B x h start cs = .ok p ∧
      p.2.N = h.N ∧ p.2.edges = h.edges ∧ p.2.weights = h.weights ∧
      (∀ b, p.2.T b = h.T b + tausTotal cs b) ∧
      (∀ b i, p.2.nodes b i =
        if b < B ∧ h.T b ≤ i ∧ i < h.T b + tausTotal cs b
        then x b (start b + (i - h.T b)) else h.nodes b i) := by
  intro cs
  induction cs with
  | nil =>
    intro h start hcaus hnz hcap
    refine ⟨(fun _ _ => 0, h), rfl, rfl, rfl, rfl, ?_, ?_⟩
    · intro b
      have ht : tausTotal [] b = 0 := rfl
      show h.T b = h.T b + tausTotal [] b
      omega
    · intro b i
      have ht : tausTotal [] b = 0 := rfl
      rw [if_neg (by omega)]
  | cons tc1 rest ih =>
    intro h start hcaus hnz hcap
    have hcap1 : ∀ b, b < B → h.T b + tc1 b ≤ h.N := by
      intro b hb
      have hc := hcap b hb
      have ht : tausTotal (tc1 :: rest) b = tc1 b + tausTotal rest b := rfl
      omega
    obtain ⟨out1, H1, hf, hN1, hE1, hW1, hT1, hNodes1⟩ :=
      forward_step_char m (fun b j => x b (start b + j)) tc1 B h hlen hsel haux
        hcaus (hnz tc1 (List.mem_cons_self _ _)) hcap1
    cases rest with
    | nil =>
      refine ⟨(out1, H1), ?_, hN1, hE1, hW1, ?_, ?_⟩
      · rw [threadChunks_singleton, hf]
      · intro b
        show H1.T b = h.T b + tausTotal [tc1] b
        have ht : tausTotal [tc1] b = tc1 b + 0 := rfl
        have h1t := hT1 b
        omega
      · intro b i
        show H1.nodes b i = _
        rw [hNodes1 b i]
        rfl
    | cons c2 r2 =>
      obtain ⟨q, hq, hqN, hqE, hqW, hqT, hqNodes⟩ :=
        ih H1 (fun b => start b + tc1 b) (hE1 ▸ hcaus)
          (fun tcc htcc => hnz tcc (List.mem_cons_of_mem _ htcc))
          (by
            intro b hb
            have hc := hcap b hb
            have ht : tausTotal (tc1 :: c2 :: r2) b = tc1 b + tausTotal (c2 :: r2) b := rfl
            have h1t := hT1 b
            rw [hN1]
            omega)
      refine ⟨q, ?_, by rw [hqN, hN1], by rw [hqE, hE1], by rw [hqW, hW1], ?_, ?_⟩
      · rw [threadChunks_cons_of_ne m B x h start tc1 (c2 :: r2) (List.cons_ne_nil _ _), hf]
        exact hq
      · intro b
        have h1t := hT1 b
        have hqt := hqT b
        have ht : tausTotal (tc1 :: c2 :: r2) b = tc1 b + tausTotal (c2 :: r2) b := rfl
        omega
      · intro b i
        rw [hqNodes b i]
        have h1t := hT1 b
        have htt : tausTotal (tc1 :: c2 :: r2) b = tc1 b + tausTotal (c2 :: r2) b := rfl
        by_cases hb : b < B
        · by_cases hup : H1.T b ≤ i ∧ i < H1.T b + tausTotal (c2 :: r2) b
          · rw [if_pos ⟨hb, hup.1, hup.2⟩, if_pos ⟨hb, by omega, by omega⟩]
            congr 1
            omega
          · rw [if_neg (by omega), hNodes1 b i]
            by_cases hfirst : h.T b ≤ i ∧ i < h.T b + tc1 b
            · rw [if_pos ⟨hb, hfirst.1, hfirst.2⟩, if_pos ⟨hb, hfirst.1, by omega⟩]
            · rw [if_neg (by omega), if_neg (by omega)]
        · rw [if_neg (by omega), hNodes1 b i, if_neg (by omega), if_neg (by omega)]

/-- Chunk-by-chunk threading versus the single full call, with no edge
selectors configured: both runs succeed, the final hidden states agree, and
the last chunk's dense output equals the full call's dense output at the
corresponding (shifted) time positions. -/
theorem threadChunks_vs_full (m : SparseGCM α) (B : ℕ) (x : ℕ → ℕ → α)
    (hlen : ∀ ns es ws, (m.gnn ns es ws).length = ns.length)
    (hsel : m.edge_selectors = none) (haux : m.aux_edge_selectors = none) :
    ∀ (cs : List (ℕ → ℕ)) (tcL : ℕ → ℕ) (h : Hidden α) (start : ℕ → ℕ),
    (∀ e ∈ h.edges, e.1 < e.2) →
    (∀ tc ∈ cs ++ [tcL], ∃ b, b < B ∧ 0 < tc b) →
    (∀ b, b < B → h.T b + tausTotal (cs ++ [tcL]) b ≤ h.N) →
    ∃ p q,
      threadChunks m B x h start (cs ++ [tcL]) = .ok p ∧
      forward m (fun b j => x b (start b + j)) (tausTotal (cs ++ [tcL])) B
        (some h) = .ok q ∧
      (∀ b i, p.2.nodes b i = q.2.nodes b i) ∧
      (∀ b, p.2.T b = q.2.T b) ∧
      p.2.edges = q.2.edges ∧ p.2.weights = q.2.weights ∧ p.2.N = q.2.N ∧
      (∀ b, b < B → ∀ j, j < tcL b →
        p.1 b j = q.1 b (tausTotal cs b + j)) := by
  intro cs
  induction cs with
  | nil =>
    intro tcL h start hcaus hnz hcap
    have hnzL : ∃ b, b < B ∧ 0 < tcL b := hnz tcL (by simp)
    have hcapL : ∀ b, b < B → h.T b + tcL b ≤ h.N := by
      intro b hb
      have hc := hcap b hb
      have ht : tausTotal ([] ++ [tcL]) b = tcL b + 0 := rfl
      omega
    have hfw := forward_ok_of m (fun b j => x b (start b + j)) tcL B h hlen
      hcaus hnzL hcapL haux
    refine ⟨(mxDense m (fun b j => x b (start b + j)) tcL B h,
      { N := h.N
        nodes := updatedNodes (fun b j => x b (start b + j)) tcL B h
        edges := (selectorEW m (fun b j => x b (start b + j)) tcL B h).1
        weights := (selectorEW m (fun b j => x b (start b + j)) tcL B h).2
        T := fun b => h.T b + tcL b }),
      (mxDense m (fun b j => x b (start b + j)) tcL B h,
      { N := h.N
        nodes := updatedNodes (fun b j => x b (start b + j)) tcL B h
        edges := (selectorEW m (fun b j => x b (start b + j)) tcL B h).1
        weights := (selectorEW m (fun b j => x b (start b + j)) tcL B h).2
        T := fun b => h.T b + tcL b }),
      ?_, ?_, fun b i => rfl, fun b => rfl, rfl, rfl, rfl, ?_⟩
    · rw [List.nil_append, threadChunks_singleton, hfw]
    · exact hfw
    · intro b hb j hj
      have ht0 : tausTotal ([] : List (ℕ → ℕ)) b = 0 := rfl
      have harg : tausTotal ([] : List (ℕ → ℕ)) b + j = j := by omega
      rw [harg]
  | cons tc1 cs' ih =>
    intro tcL h start hcaus hnz hcap
    have hcap1 : ∀ b, b < B → h.T b + tc1 b ≤ h.N := by
      intro b hb
      have hc := hcap b hb
      have ht : tausTotal ((tc1 :: cs') ++ [tcL]) b
          = tc1 b + tausTotal (cs' ++ [tcL]) b := rfl
      omega
    obtain ⟨out1, H1, hf, hN1, hE1, hW1, hT1, hNodes1⟩ :=
      forward_step_char m (fun b j => x b (start b + j)) tc1 B h hlen hsel haux
        hcaus (hnz tc1 (by simp)) hcap1
    obtain ⟨p, q1, hthr, hfull1, hnodes1, hT1q, hE1q, hW1q, hN1q, hout1⟩ :=
      ih tcL H1 (fun b => start b + tc1 b)
        (hE1 ▸ hcaus)
        (fun tcc htcc => hnz tcc (List.mem_cons_of_mem _ htcc))
        (by
          intro b hb
          have hc := hcap b hb
          have ht : tausTotal ((tc1 :: cs') ++ [tcL]) b
              = tc1 b + tausTotal (cs' ++ [tcL]) b := rfl
          have h1t := hT1 b
          rw [hN1]
          omega)
    have hq1 := forward_ok_inv _ _ _ _ _ _ hfull1
    have hhq : hiddenOr m B (some H1) = H1 := rfl
    rw [hhq] at hq1
    have hnzF : ∃ b, b < B ∧ 0 < tausTotal ((tc1 :: cs') ++ [tcL]) b := by
      obtain ⟨b, hb, hpos⟩ := hnz tcL (by simp)
      refine ⟨b, hb, ?_⟩
      have hta := tausTotal_append (tc1 :: cs') [tcL] b
      have ht1 : tausTotal [tcL] b = tcL b + 0 := rfl
      omega
    have hfull := forward_ok_of m (fun b j => x b (start b + j))
      (tausTotal ((tc1 :: cs') ++ [tcL])) B h hlen hcaus hnzF hcap haux
    have hbuf : updatedNodes (fun b j => x b (start b + tc1 b + j))
        (tausTotal (cs' ++ [tcL])) B H1 =
        updatedNodes (fun b j => x b (start b + j))
        (tausTotal ((tc1 :: cs') ++ [tcL])) B h := by
      funext b i
      rw [updatedNodes_apply, updatedNodes_apply]
      have h1t := hT1 b
      have htap : tausTotal ((tc1 :: cs') ++ [tcL]) b
          = tc1 b + tausTotal (cs' ++ [tcL]) b := rfl
      by_cases hb : b < B
      · by_cases h2 : H1.T b ≤ i ∧ i < H1.T b + tausTotal (cs' ++ [tcL]) b
        · rw [if_pos ⟨hb, h2.1, h2.2⟩, if_pos ⟨hb, by omega, by omega⟩]
          show x b (start b + tc1 b + (i - H1.T b)) = x b (start b + (i - h.T b))
          congr 1
          omega
        · rw [if_neg (by omega), hNodes1 b i]
          by_cases h3 : h.T b ≤ i ∧ i < h.T b + tc1 b
          · rw [if_pos ⟨hb, h3.1, h3.2⟩, if_pos ⟨hb, h3.1, by omega⟩]
          · rw [if_neg (by omega), if_neg (by omega)]
      · rw [if_neg (by omega), hNodes1 b i, if_neg (by omega), if_neg (by omega)]
    have hfeats : nodeFeats m (fun b j => x b (start b + tc1 b + j))
        (tausTotal (cs' ++ [tcL])) B H1 =
        nodeFeats m (fun b j => x b (start b + j))
        (tausTotal ((tc1 :: cs') ++ [tcL])) B h := by
      rw [nodeFeats, nodeFeats, selectorEW_none hsel, selectorEW_none hsel,
        hE1, hW1, hbuf]
      have hflat :
          (flatten_nodes (dirtyNodes m (updatedNodes (fun b j => x b (start b + j))
            (tausTotal ((tc1 :: cs') ++ [tcL])) B h)) H1.T
            (tausTotal (cs' ++ [tcL])) B).1 =
          (flatten_nodes (dirtyNodes m (updatedNodes (fun b j => x b (start b + j))
            (tausTotal ((tc1 :: cs') ++ [tcL])) B h)) h.T
            (tausTotal ((tc1 :: cs') ++ [tcL])) B).1 := by
        rw [flatten_nodes_fst, flatten_nodes_fst]
        apply rangeFlat_congr
        intro b
        have h1t := hT1 b
        have htap : tausTotal ((tc1 :: cs') ++ [tcL]) b
            = tc1 b + tausTotal (cs' ++ [tcL]) b := rfl
        have hnn : H1.T b + tausTotal (cs' ++ [tcL]) b
            = h.T b + tausTotal ((tc1 :: cs') ++ [tcL]) b := by omega
        rw [hnn]
      rw [hflat]
    have hoff : ∀ b, flatOffset H1.T (tausTotal (cs' ++ [tcL])) b =
        flatOffset h.T (tausTotal ((tc1 :: cs') ++ [tcL])) b := by
      intro b
      unfold flatOffset
      apply rangeSum_congr
      intro c
      have h1t := hT1 c
      have htap : tausTotal ((tc1 :: cs') ++ [tcL]) c
          = tc1 c + tausTotal (cs' ++ [tcL]) c := rfl
      omega
    refine ⟨p,
      (mxDense m (fun b j => x b (start b + j))
        (tausTotal ((tc1 :: cs') ++ [tcL])) B h,
      { N := h.N
        nodes := updatedNodes (fun b j => x b (start b + j))
          (tausTotal ((tc1 :: cs') ++ [tcL])) B h
        edges := (selectorEW m (fun b j => x b (start b + j))
          (tausTotal ((tc1 :: cs') ++ [tcL])) B h).1
        weights := (selectorEW m (fun b j => x b (start b + j))
          (tausTotal ((tc1 :: cs') ++ [tcL])) B h).2
        T := fun b => h.T b + tausTotal ((tc1 :: cs') ++ [tcL]) b }),
      ?_, hfull, ?_, ?_, ?_, ?_, ?_, ?_⟩
    · rw [List.cons_append,
        threadChunks_cons_of_ne m B x h start tc1 (cs' ++ [tcL]) (by simp), hf]
      exact hthr
    · intro b i
      rw [hnodes1 b i, hq1]
      show updatedNodes (fun b j => x b (start b + tc1 b + j))
          (tausTotal (cs' ++ [tcL])) B H1 b i = _
      rw [hbuf]
    · intro b
      rw [hT1q b, hq1]
      show H1.T b + tausTotal (cs' ++ [tcL]) b
          = h.T b + tausTotal ((tc1 :: cs') ++ [tcL]) b
      have h1t := hT1 b
      have htap : tausTotal ((tc1 :: cs') ++ [tcL]) b
          = tc1 b + tausTotal (cs' ++ [tcL]) b := rfl
      omega
    · rw [hE1q, hq1]
      show (selectorEW m (fun b j => x b (start b + tc1 b + j))
          (tausTotal (cs' ++ [tcL])) B H1).1 = _
      rw [selectorEW_none hsel, selectorEW_none hsel, hE1]
    · rw [hW1q, hq1]
      show (selectorEW m (fun b j => x b (start b + tc1 b + j))
          (tausTotal (cs' ++ [tcL])) B H1).2 = _
      rw [selectorEW_none hsel, selectorEW_none hsel, hW1]
    · rw [hN1q, hq1]
      exact hN1
    · intro b hb j hj
      rw [hout1 b hb j hj, hq1]
      show mxDense m (fun b j => x b (start b + tc1 b + j))
          (tausTotal (cs' ++ [tcL])) B H1 b (tausTotal cs' b + j)
          = mxDense m (fun b j => x b (start b + j))
            (tausTotal ((tc1 :: cs') ++ [tcL])) B h b (tausTotal (tc1 :: cs') b + j)
      have htap : tausTotal ((tc1 :: cs') ++ [tcL]) b
          = tc1 b + tausTotal (cs' ++ [tcL]) b := rfl
      have hta2 := tausTotal_append cs' [tcL] b
      have htL : tausTotal [tcL] b = tcL b + 0 := rfl
      have htc : tausTotal (tc1 :: cs') b = tc1 b + tausTotal cs' b := rfl
      have h1t := hT1 b
      rw [mxDense_apply, mxDense_apply, if_pos ⟨hb, by omega⟩,
        if_pos ⟨hb, by omega⟩, hfeats]
      have hob := hoff b
      congr 1
      omega

/-- Claim C1 (amended): for every sequence split into successive chunks,
calling `forward` chunk-by-chunk while threading the hidden state produces the
same final hidden state and the same final dense output (elementwise, at the
corresponding time positions) as calling `forward` once with the whole
sequence — provided no edge selectors (primary or auxiliary) are configured,
the GNN is a deterministic node-count-preserving function, every chunk adds a
node somewhere in the batch, and no overflow occurs. -/
theorem C1_incremental_equivalence (m : SparseGCM α) (B : ℕ) (x : ℕ → ℕ → α)
    (h : Hidden α) (cs : List (ℕ → ℕ)) (tcL : ℕ → ℕ)
    (hlen : ∀ ns es ws, (m.gnn ns es ws).length = ns.length)
    (hsel : m.edge_selectors = none) (haux : m.aux_edge_selectors = none)
    (hcaus : ∀ e ∈ h.edges, e.1 < e.2)
    (hnz : ∀ tc ∈ cs ++ [tcL], ∃ b, b < B ∧ 0 < tc b)
    (hcap : ∀ b, b < B → h.T b + tausTotal (cs ++ [tcL]) b ≤ h.N) :
    isOkE (threadChunks m B x h (fun _ => 0) (cs ++ [tcL])) = true ∧
    isOkE (forward m x (tausTotal (cs ++ [tcL])) B (some h)) = true ∧
    (∀ b i, nodeAt (threadChunks m B x h (fun _ => 0) (cs ++ [tcL])) b i =
      nodeAt (forward m x (tausTotal (cs ++ [tcL])) B (some h)) b i) ∧
    (∀ b, stateT (threadChunks m B x h (fun _ => 0) (cs ++ [tcL])) b =
      stateT (forward m x (tausTotal (cs ++ [tcL])) B (some h)) b) ∧
    (∀ b, b < B → ∀ j, j < tcL b →
      outAt (threadChunks m B x h (fun _ => 0) (cs ++ [tcL])) b j =
      outAt (forward m x (tausTotal (cs ++ [tcL])) B (some h)) b
        (tausTotal cs b + j)) := by
  obtain ⟨p, q, hthr, hfull, hnodes, hT, hE, hW, hN, hout⟩ :=
    threadChunks_vs_full m B x hlen hsel haux cs tcL h (fun _ => 0) hcaus hnz hcap
  have hx : (fun b j => x b (0 + j)) = x := by
    funext b j
    rw [Nat.zero_add]
  rw [hx] at hfull
  refine ⟨by rw [hthr]; rfl, by rw [hfull]; rfl, ?_, ?_, ?_⟩
  · intro b i
    rw [hthr, hfull]
    exact congrArg some (hnodes b i)
  · intro b
    rw [hthr, hfull]
    exact congrArg some (hT b)
  · intro b hb j hj
    rw [hthr, hfull]
    exact congrArg some (hout b hb j hj)

/-- Witness for the amended C1: two one-timestep chunks versus a single
two-timestep call, identity GNN, no selectors. -/
theorem C1_incremental_equivalence_witness :
    isOkE (threadChunks mIdentity 1 xCount emptyState4 (fun _ => 0)
      ([tausChunk] ++ [tausChunk])) = true ∧
    isOkE (forward mIdentity xCount (tausTotal ([tausChunk] ++ [tausChunk])) 1
      (some emptyState4)) = true ∧
    (∀ b i, nodeAt (threadChunks mIdentity 1 xCount emptyState4 (fun _ => 0)
        ([tausChunk] ++ [tausChunk])) b i =
      nodeAt (forward mIdentity xCount (tausTotal ([tausChunk] ++ [tausChunk])) 1
        (some emptyState4)) b i) ∧
    (∀ b, stateT (threadChunks mIdentity 1 xCount emptyState4 (fun _ => 0)
        ([tausChunk] ++ [tausChunk])) b =
      stateT (forward mIdentity xCount (tausTotal ([tausChunk] ++ [tausChunk])) 1
        (some emptyState4)) b) ∧
    (∀ b, b < 1 → ∀ j, j < tausChunk b →
      outAt (threadChunks mIdentity 1 xCount emptyState4 (fun _ => 0)
        ([tausChunk] ++ [tausChunk])) b j =
      outAt (forward mIdentity xCount (tausTotal ([tausChunk] ++ [tausChunk])) 1
        (some emptyState4)) b (tausTotal [tausChunk] b + j)) :=
  C1_incremental_equivalence mIdentity 1 xCount emptyState4 [tausChunk] tausChunk
    (fun _ _ _ => rfl) rfl rfl (by decide)
    (by
      intro tc htc
      have h2 : tc = tausChunk ∨ tc = tausChunk := by simpa using htc
      rcases h2 with rfl | rfl <;> exact ⟨0, by decide, by decide⟩)
    (by
      intro b hb
      have h0 : emptyState4.T b = 0 := rfl
      have h1 : tausTotal ([tausChunk] ++ [tausChunk]) b = 1 + (1 + 0) := rfl
      have h2 : emptyState4.N = 4 := rfl
      omega)

/-- Counterexample for C1 as frozen: with a deterministic edge selector that
adds one edge per invocation and a deterministic GNN that reports the edge
count, chunk-by-chunk threading (two one-step chunks) yields a final dense
output of 2 while the single whole-sequence call yields 1 at the
corresponding position (and at every real position), so the chunked and full
runs disagree elementwise even though all collaborators are deterministic and
no overflow occurs. -/
theorem C1_counterexample_selector_rerun :
    outAt (threadChunks mCountEdges 1 xCount emptyState4 (fun _ => 0)
      [tausChunk, tausChunk]) 0 0 = some 2 ∧
    outAt (forward mCountEdges xCount tausWhole 1 (some emptyState4)) 0 1 =
      some 1 ∧
    outAt (forward mCountEdges xCount tausWhole 1 (some emptyState4)) 0 0 =
      some 1 ∧
    outAt (threadChunks mCountEdges 1 xCount emptyState4 (fun _ => 0)
        [tausChunk, tausChunk]) 0 0 ≠
      outAt (forward mCountEdges xCount tausWhole 1 (some emptyState4)) 0 1 ∧
    outAt (threadChunks mCountEdges 1 xCount emptyState4 (fun _ => 0)
        [tausChunk, tausChunk]) 0 0 ≠
      outAt (forward mCountEdges xCount tausWhole 1 (some emptyState4)) 0 0 := by
  decide

end SparseGCMModel
